import Mathlib

/-!
Shallow embedding of the geocoding pipeline in scripts/geocode-servers.mjs.

The script reads a catalog file (country -> list of city names), builds a
work list of (country, city, key) items, and resolves each item either from
a persisted cache or by querying a geocoding provider with a primary query
"city, country" and a single bare-city fallback.  With a MapTiler credential
it uses the MapTiler provider with concurrency 6; without one it uses
Nominatim with concurrency 1 and a sleep(1100) after each (non-throwing)
provider call.  Results are accumulated per country and, together with the
cache, written out at the end.

The embedding models the catalog, cache and output objects as association
lists in insertion order (matching JavaScript object key order), the network
as a function from request to response (found / no-result / HTTP error), and
the run as the sequential fold that the concurrency-1 queue executes;
mutation in the source happens only in task completion handlers on the
single JavaScript thread.  Every provider call and every executed sleep is
recorded in an event trace so that rate-limit properties can be stated.
Floating-point coordinate values are never computed with, only stored and
copied, so they are represented by integers.
-/

/-- Whitespace class used by the normalization regex and by trim. -/
def isWs (ch : Char) : Bool := ch == ' ' || ch == '\t' || ch == '\n' || ch == '\r'

/-- Drop leading whitespace. -/
def lstrip (l : List Char) : List Char := l.dropWhile isWs

/-- Drop trailing whitespace. -/
def rstrip (l : List Char) : List Char := (l.reverse.dropWhile isWs).reverse

/-- JavaScript String.prototype.trim on a character list. -/
def trimL (l : List Char) : List Char := rstrip (lstrip l)

/-- Case folding for the case-insensitive regex flag. -/
def lowerStr (l : List Char) : List Char := l.map Char.toLower

/-- The literal token matched by the normalization regex. -/
def virtualTok : List Char := "(virtual)".data

/--
Embeds normalizeName from the source:
  s.replace(/\s+\x7bnothing\x7d(virtual)\s*$/i, "").trim()
with the regex written there as one-or-more whitespace, the literal
"(virtual)" (case-insensitive), optional whitespace, end of string.
The regex matches exactly when the string, after discarding trailing
whitespace, ends in "(virtual)" preceded by at least one whitespace
character; the match (which is then removed) extends from that whitespace
run to the end of the string.
-/
def normalizeNameL (l : List Char) : List Char :=
  let t := rstrip l
  if virtualTok.isSuffixOf (lowerStr t) then
    let p := t.take (t.length - 9)
    match p.getLast? with
    | some ch => if isWs ch then trimL p else trimL l
    | none => trimL l
  else trimL l

/-- String wrapper for `normalizeNameL`. -/
def normalizeName (s : String) : String := String.mk (normalizeNameL s.data)

/-- Embeds key from the source: the template string country ++ "::" ++ city. -/
def key (country city : String) : String := country ++ "::" ++ city

/-- A resolved coordinate pair, as stored in the cache file. -/
structure Coord where
  lat : Int
  lng : Int
deriving DecidableEq, Repr

/-- What the network returns for one provider request: a feature with
coordinates, an empty result set, or a non-ok HTTP response (which the
source turns into a thrown error). -/
inductive PResp where
  | found (lat lng : Int)
  | noResult
  | httpError (status : Nat)
deriving DecidableEq, Repr

/-- First-match lookup in an association list (JavaScript property read). -/
def aget {α β : Type} [DecidableEq α] : List (α × β) → α → Option β
  | [], _ => none
  | (a, b) :: t, x => if a = x then some b else aget t x

/-- Property write on an association list: overwrite the existing binding in
place, or append a new one (JavaScript property assignment, preserving key
insertion order). -/
def aset {α β : Type} [DecidableEq α] : List (α × β) → α → β → List (α × β)
  | [], x, v => [(x, v)]
  | (a, b) :: t, x, v => if a = x then (x, v) :: t else (a, b) :: aset t x v

/-- Embeds the ISO_HINT map of the source (country name to ISO code hint for
the MapTiler provider). -/
def ISO_HINT : List (String × String) :=
  [("United States", "US"), ("United Kingdom", "GB"), ("South Korea", "KR"),
   ("North Macedonia", "MK"), ("Czech Republic", "CZ"),
   ("United Arab Emirates", "AE"), ("Vietnam", "VN"), ("Laos", "LA"),
   ("Myanmar", "MM"), ("Taiwan", "TW"), ("Hong Kong", "HK")]

/--
Embeds geocodeNominatim: issue the request, throw on a non-ok HTTP status,
return the first feature's coordinates or null when the result array is
empty.  The network is abstracted as a function from the query string to a
response; errors are `Except.error` carrying the HTTP status.
-/
def geocodeNominatim (netN : String → PResp) (q : String) :
    Except Nat (Option Coord) :=
  match netN q with
  | PResp.found la ln => Except.ok (some ⟨la, ln⟩)
  | PResp.noResult => Except.ok none
  | PResp.httpError s => Except.error s

/--
Embeds geocodeMapTiler: the request carries the query string and the
optional ISO country hint looked up in `ISO_HINT`; throw on a non-ok HTTP
status, return the first feature's coordinates or null when absent.
-/
def geocodeMapTiler (netM : String → Option String → PResp) (q country : String) :
    Except Nat (Option Coord) :=
  match netM q (aget ISO_HINT country) with
  | PResp.found la ln => Except.ok (some ⟨la, ln⟩)
  | PResp.noResult => Except.ok none
  | PResp.httpError s => Except.error s

/-- Embeds the try/catch around a provider call: a thrown error leaves the
result variable at its initial null. -/
def caught : Except Nat (Option Coord) → Option Coord
  | Except.error _ => none
  | Except.ok r => r

/-- Observable events of a run: a provider call with its query string, and an
executed sleep with its duration in milliseconds. -/
inductive Event where
  | call (q : String)
  | slept (ms : Nat)
deriving DecidableEq, Repr

/--
Embeds one guarded provider attempt of the task body.  With an empty
MAPTILER_KEY the source runs
  try { res = await geocodeNominatim(q); await sleep(1100); } catch {}
so the sleep is executed only when the call returns (found or no-result) and
is skipped when it throws; with a key it runs
  try { res = await geocodeMapTiler(q, country); } catch {}
with no sleep.  Returns the caught result and the events that occurred.
-/
def attempt (mk : String) (netM : String → Option String → PResp)
    (netN : String → PResp) (q country : String) : Option Coord × List Event :=
  if mk = "" then
    match geocodeNominatim netN q with
    | Except.error _ => (none, [Event.call q])
    | Except.ok r => (r, [Event.call q, Event.slept 1100])
  else
    (caught (geocodeMapTiler netM q country), [Event.call q])

/-- A work list entry as built by the source: normalized country, normalized
city, and the derived cache key. -/
structure WorkItem where
  country : String
  city : String
  k : String
deriving DecidableEq, Repr

/--
Embeds the work list construction loop: for every country of the catalog in
order and every city of its list in order, push one item with normalized
names and the derived key (the loop performs no deduplication and no
filtering).
-/
def buildWork : List (String × List String) → List WorkItem
  | [] => []
  | (countryRaw, cities) :: rest =>
      (cities.map fun cityRaw =>
        let country := normalizeName countryRaw
        let city := normalizeName cityRaw
        WorkItem.mk country city (key country city)) ++ buildWork rest

/-- One entry of the output catalog: the spread of name plus the cache
record. -/
structure OutEntry where
  name : String
  lat : Int
  lng : Int
deriving DecidableEq, Repr

/-- Embeds the out-object initialization of the work list loop: for each
catalog country in order, set out[normalized country] to the empty list. -/
def initOut (raw : List (String × List String)) :
    List (String × List OutEntry) :=
  raw.foldl (fun acc p => aset acc (normalizeName p.1) []) []

/-- Embeds out[country].push(e). -/
def pushOut (out : List (String × List OutEntry)) (country : String)
    (e : OutEntry) : List (String × List OutEntry) :=
  aset out country (((aget out country).getD []) ++ [e])

/-- The mutable state of a run: cache object, output object, and the three
progress counters. -/
structure RunState where
  cache : List (String × Coord)
  out : List (String × List OutEntry)
  processed : Nat
  hits : Nat
  misses : Nat
deriving DecidableEq, Repr

/--
Embeds the primary-then-fallback resolution of the task body: run the
primary attempt with query "city, country"; if its (caught) result is null,
run exactly one fallback attempt with the bare city name.
-/
def resolveItem (mk : String) (netM : String → Option String → PResp)
    (netN : String → PResp) (country city : String) :
    Option Coord × List Event :=
  let a1 := attempt mk netM netN (city ++ ", " ++ country) country
  match a1.1 with
  | some c => (some c, a1.2)
  | none =>
      let a2 := attempt mk netM netN city country
      (a2.1, a1.2 ++ a2.2)

/--
Embeds one queued task of the source: on a cache hit push the cached record
into the output and count a hit; otherwise resolve via the provider, and on
success write the cache and push the written record into the output, on
failure count a miss.  Every branch counts the item as processed.
-/
def runTask (mk : String) (netM : String → Option String → PResp)
    (netN : String → PResp) (st : RunState) (w : WorkItem) :
    RunState × List Event :=
  match aget st.cache w.k with
  | some v =>
      ({ st with out := pushOut st.out w.country ⟨w.city, v.lat, v.lng⟩,
                 hits := st.hits + 1, processed := st.processed + 1 }, [])
  | none =>
      match resolveItem mk netM netN w.country w.city with
      | (some c, evs) =>
          ({ st with cache := aset st.cache w.k c,
                     out := pushOut st.out w.country ⟨w.city, c.lat, c.lng⟩,
                     processed := st.processed + 1 }, evs)
      | (none, evs) =>
          ({ st with misses := st.misses + 1,
                     processed := st.processed + 1 }, evs)

/-- Sequential execution of the work list; returns the final state and the
concatenated event trace.  This is the exact schedule of the concurrency-1
queue of the unkeyed path; with a MapTiler key the source uses a
concurrency-6 queue whose task interleavings can reorder reads and writes
(the cache-hit check runs at task start and the cache write after the
awaited provider calls), so for the keyed path this fold is one admissible
schedule, and theorems whose conclusions are schedule-sensitive — two work
items carrying the same derived key from different (country, city) pairs
could both read a miss before either writes — must carry an explicit
collision-freedom hypothesis to hold for the concurrent run as well. -/
def runAll (mk : String) (netM : String → Option String → PResp)
    (netN : String → PResp) : RunState → List WorkItem → RunState × List Event
  | st, [] => (st, [])
  | st, w :: ws =>
      let p := runTask mk netM netN st w
      let q := runAll mk netM netN p.1 ws
      (q.1, p.2 ++ q.2)

/-- The state at the start of a run: the loaded cache, the pre-allocated
output object, and zeroed counters. -/
def initState (raw : List (String × List String))
    (cache0 : List (String × Coord)) : RunState :=
  ⟨cache0, initOut raw, 0, 0, 0⟩

/-- A whole run of the pipeline on a loaded catalog and cache. -/
def run (mk : String) (netM : String → Option String → PResp)
    (netN : String → PResp) (raw : List (String × List String))
    (cache0 : List (String × Coord)) : RunState × List Event :=
  runAll mk netM netN (initState raw cache0) (buildWork raw)

/-- The provider calls of a trace, in order. -/
def callsOf : List Event → List String
  | [] => []
  | Event.call q :: t => q :: callsOf t
  | Event.slept _ :: t => callsOf t

/-- Total enforced delay of a trace: the sum of all executed sleeps.  This
is the only lower bound the code places on elapsed wall time. -/
def totalSleep : List Event → Nat
  | [] => 0
  | Event.call _ :: t => totalSleep t
  | Event.slept ms :: t => ms + totalSleep t

/--
Embeds loadJSON: read the file and parse it, returning the fallback if the
read fails (absent or unreadable file, modelled by a `none` contents) or the
parse throws (malformed contents, modelled by the parse function returning
`none`).
-/
def loadJSON {α : Type} (contents : Option String)
    (parse : String → Option α) (fallback : α) : α :=
  match contents with
  | none => fallback
  | some s =>
      match parse s with
      | none => fallback
      | some v => v

/-- Embeds the top of main: load the catalog and the cache with empty-object
fallbacks, then run the pipeline. -/
def mainModel (mk : String) (netM : String → Option String → PResp)
    (netN : String → PResp) (inputC cacheC : Option String)
    (parseCatalog : String → Option (List (String × List String)))
    (parseCache : String → Option (List (String × Coord))) :
    RunState × List Event :=
  run mk netM netN (loadJSON inputC parseCatalog [])
    (loadJSON cacheC parseCache [])

theorem sanity_normalize : normalizeName "Berlin (virtual)" = "Berlin" := by decide

theorem sanity_normalize_ws : normalizeName " (virtual)" = "" := by decide

theorem sanity_key : key "Germany" "Berlin" = "Germany::Berlin" := by decide

theorem aget_aset_self {α β : Type} [DecidableEq α] (l : List (α × β)) (x : α)
    (v : β) : aget (aset l x v) x = some v := by
  induction l with
  | nil => simp [aset, aget]
  | cons h t ih =>
      obtain ⟨a, b⟩ := h
      by_cases hax : a = x
      · subst hax; simp [aset, aget]
      · simp [aset, aget, hax, ih]

theorem aget_aset_ne {α β : Type} [DecidableEq α] (l : List (α × β)) (x : α)
    (v : β) (y : α) (hyx : y ≠ x) : aget (aset l x v) y = aget l y := by
  induction l with
  | nil => simp [aset, aget, Ne.symm hyx]
  | cons h t ih =>
      obtain ⟨a, b⟩ := h
      by_cases hax : a = x
      · subst hax; simp [aset, aget, Ne.symm hyx]
      · simp [aset, aget, hax, ih]

theorem aget_aset_cases {α β : Type} [DecidableEq α] (l : List (α × β)) (x : α)
    (v : β) (y : α) :
    aget (aset l x v) y = aget l y ∨ aget (aset l x v) y = some v := by
  by_cases hyx : y = x
  · subst hyx; exact Or.inr (aget_aset_self l y v)
  · exact Or.inl (aget_aset_ne l x v y hyx)

theorem runTask_hit (mk : String) (netM : String → Option String → PResp)
    (netN : String → PResp) (st : RunState) (w : WorkItem) (v : Coord)
    (h : aget st.cache w.k = some v) :
    runTask mk netM netN st w =
      ({ st with out := pushOut st.out w.country ⟨w.city, v.lat, v.lng⟩,
                 hits := st.hits + 1, processed := st.processed + 1 }, []) := by
  simp [runTask, h]

theorem runTask_resolve (mk : String) (netM : String → Option String → PResp)
    (netN : String → PResp) (st : RunState) (w : WorkItem) (c : Coord)
    (evs : List Event) (h : aget st.cache w.k = none)
    (hr : resolveItem mk netM netN w.country w.city = (some c, evs)) :
    runTask mk netM netN st w =
      ({ st with cache := aset st.cache w.k c,
                 out := pushOut st.out w.country ⟨w.city, c.lat, c.lng⟩,
                 processed := st.processed + 1 }, evs) := by
  simp [runTask, h, hr]

theorem runTask_missed (mk : String) (netM : String → Option String → PResp)
    (netN : String → PResp) (st : RunState) (w : WorkItem) (evs : List Event)
    (h : aget st.cache w.k = none)
    (hr : resolveItem mk netM netN w.country w.city = (none, evs)) :
    runTask mk netM netN st w =
      ({ st with misses := st.misses + 1,
                 processed := st.processed + 1 }, evs) := by
  simp [runTask, h, hr]

theorem runTask_cache_mono (mk : String) (netM : String → Option String → PResp)
    (netN : String → PResp) (st : RunState) (w : WorkItem) (x : String)
    (v : Coord) (h : aget st.cache x = some v) :
    aget (runTask mk netM netN st w).1.cache x = some v := by
  cases hc : aget st.cache w.k with
  | some u => rw [runTask_hit mk netM netN st w u hc]; exact h
  | none =>
      rcases hres : resolveItem mk netM netN w.country w.city with ⟨r, evs⟩
      cases r with
      | some c =>
          rw [runTask_resolve mk netM netN st w c evs hc hres]
          have hx : x ≠ w.k := by
            intro he
            rw [he, hc] at h
            exact Option.noConfusion h
          simpa [aget_aset_ne st.cache w.k c x hx] using h
      | none =>
          rw [runTask_missed mk netM netN st w evs hc hres]
          exact h

theorem runAll_cache_mono (mk : String) (netM : String → Option String → PResp)
    (netN : String → PResp) (ws : List WorkItem) (st : RunState) (x : String)
    (v : Coord) (h : aget st.cache x = some v) :
    aget (runAll mk netM netN st ws).1.cache x = some v := by
  induction ws generalizing st with
  | nil => simpa [runAll] using h
  | cons w ws ih =>
      simp only [runAll]
      exact ih (runTask mk netM netN st w).1
        (runTask_cache_mono mk netM netN st w x v h)

theorem runTask_processed (mk : String) (netM : String → Option String → PResp)
    (netN : String → PResp) (st : RunState) (w : WorkItem) :
    (runTask mk netM netN st w).1.processed = st.processed + 1 := by
  cases hc : aget st.cache w.k with
  | some u => rw [runTask_hit mk netM netN st w u hc]
  | none =>
      rcases hres : resolveItem mk netM netN w.country w.city with ⟨r, evs⟩
      cases r with
      | some c => rw [runTask_resolve mk netM netN st w c evs hc hres]
      | none => rw [runTask_missed mk netM netN st w evs hc hres]

theorem runAll_processed (mk : String) (netM : String → Option String → PResp)
    (netN : String → PResp) (ws : List WorkItem) (st : RunState) :
    (runAll mk netM netN st ws).1.processed = st.processed + ws.length := by
  induction ws generalizing st with
  | nil => simp [runAll]
  | cons w ws ih =>
      simp only [runAll]
      rw [ih (runTask mk netM netN st w).1,
        runTask_processed mk netM netN st w, List.length_cons]
      omega

theorem runAll_append (mk : String) (netM : String → Option String → PResp)
    (netN : String → PResp) (xs ys : List WorkItem) (st : RunState) :
    runAll mk netM netN st (xs ++ ys)
      = ((runAll mk netM netN (runAll mk netM netN st xs).1 ys).1,
         (runAll mk netM netN st xs).2
           ++ (runAll mk netM netN (runAll mk netM netN st xs).1 ys).2) := by
  induction xs generalizing st with
  | nil => simp [runAll]
  | cons w xs ih =>
      simp only [List.cons_append, runAll]
      rw [show (xs.append ys) = xs ++ ys from rfl, ih (runTask mk netM netN st w).1]
      simp [List.append_assoc]

theorem aget_pushOut_self (out : List (String × List OutEntry)) (c : String)
    (e : OutEntry) :
    aget (pushOut out c e) c = some (((aget out c).getD []) ++ [e]) :=
  aget_aset_self out c _

theorem aget_pushOut_ne (out : List (String × List OutEntry)) (c : String)
    (e : OutEntry) (y : String) (hy : y ≠ c) :
    aget (pushOut out c e) y = aget out y :=
  aget_aset_ne out c _ y hy

theorem runTask_out_extends (mk : String) (netM : String → Option String → PResp)
    (netN : String → PResp) (st : RunState) (w : WorkItem) (c : String)
    (es : List OutEntry) (h : aget st.out c = some es) :
    ∃ tail, aget (runTask mk netM netN st w).1.out c = some (es ++ tail) := by
  have hpush : ∀ e : OutEntry,
      aget (pushOut st.out w.country e) c
        = some (es ++ (if c = w.country then [e] else [])) := by
    intro e
    by_cases hc : c = w.country
    · subst hc
      simp [aget_pushOut_self, h]
    · rw [aget_pushOut_ne st.out w.country e c hc, h]
      simp [hc]
  cases hcch : aget st.cache w.k with
  | some u =>
      rw [runTask_hit mk netM netN st w u hcch]
      exact ⟨_, hpush _⟩
  | none =>
      rcases hres : resolveItem mk netM netN w.country w.city with ⟨r, evs⟩
      cases r with
      | some co =>
          rw [runTask_resolve mk netM netN st w co evs hcch hres]
          exact ⟨_, hpush _⟩
      | none =>
          rw [runTask_missed mk netM netN st w evs hcch hres]
          exact ⟨[], by simpa using h⟩

theorem runAll_out_extends (mk : String) (netM : String → Option String → PResp)
    (netN : String → PResp) (ws : List WorkItem) (st : RunState) (c : String)
    (es : List OutEntry) (h : aget st.out c = some es) :
    ∃ tail, aget (runAll mk netM netN st ws).1.out c = some (es ++ tail) := by
  induction ws generalizing st es with
  | nil => exact ⟨[], by simpa [runAll] using h⟩
  | cons w ws ih =>
      obtain ⟨t1, h1⟩ := runTask_out_extends mk netM netN st w c es h
      obtain ⟨t2, h2⟩ := ih (runTask mk netM netN st w).1 (es ++ t1) h1
      exact ⟨t1 ++ t2, by simpa [runAll, List.append_assoc] using h2⟩

theorem runTask_out_isSome (mk : String) (netM : String → Option String → PResp)
    (netN : String → PResp) (st : RunState) (w : WorkItem) (c : String)
    (h : (aget st.out c).isSome) :
    (aget (runTask mk netM netN st w).1.out c).isSome := by
  obtain ⟨es, hes⟩ := Option.isSome_iff_exists.mp h
  obtain ⟨tail, ht⟩ := runTask_out_extends mk netM netN st w c es hes
  simp [ht]

theorem runAll_out_isSome (mk : String) (netM : String → Option String → PResp)
    (netN : String → PResp) (ws : List WorkItem) (st : RunState) (c : String)
    (h : (aget st.out c).isSome) :
    (aget (runAll mk netM netN st ws).1.out c).isSome := by
  obtain ⟨es, hes⟩ := Option.isSome_iff_exists.mp h
  obtain ⟨tail, ht⟩ := runAll_out_extends mk netM netN ws st c es hes
  simp [ht]

theorem aget_aset_isSome {α β : Type} [DecidableEq α] (l : List (α × β)) (x : α)
    (v : β) (y : α) (h : (aget l y).isSome) : (aget (aset l x v) y).isSome := by
  rcases aget_aset_cases l x v y with hc | hc
  · simpa [hc] using h
  · simp [hc]

theorem initOut_step_isSome (raw : List (String × List String))
    (acc : List (String × List OutEntry)) (y : String)
    (h : (aget acc y).isSome) :
    (aget (raw.foldl (fun a p => aset a (normalizeName p.1) []) acc) y).isSome := by
  induction raw generalizing acc with
  | nil => simpa using h
  | cons p rest ih =>
      simp only [List.foldl_cons]
      exact ih _ (aget_aset_isSome acc (normalizeName p.1) [] y h)

theorem initOut_mem_aux (raw : List (String × List String)) (c : String)
    (cs : List String) (acc : List (String × List OutEntry)) (h : (c, cs) ∈ raw) :
    (aget (raw.foldl (fun a p => aset a (normalizeName p.1) []) acc)
      (normalizeName c)).isSome := by
  induction raw generalizing acc with
  | nil => cases h
  | cons p rest ih =>
      rcases List.mem_cons.mp h with hh | hh
      · subst hh
        simp only [List.foldl_cons]
        exact initOut_step_isSome rest _ _ (by simp [aget_aset_self])
      · simp only [List.foldl_cons]
        exact ih _ hh

theorem aget_initOut_mem (raw : List (String × List String)) (c : String)
    (cs : List String) (h : (c, cs) ∈ raw) :
    (aget (initOut raw) (normalizeName c)).isSome :=
  initOut_mem_aux raw c cs [] h

theorem initOut_values_aux (raw : List (String × List String))
    (acc : List (String × List OutEntry))
    (hacc : ∀ y es, aget acc y = some es → es = []) (y : String)
    (es : List OutEntry)
    (h : aget (raw.foldl (fun a p => aset a (normalizeName p.1) []) acc) y
          = some es) : es = [] := by
  induction raw generalizing acc with
  | nil => exact hacc y es h
  | cons p rest ih =>
      simp only [List.foldl_cons] at h
      refine ih (aset acc (normalizeName p.1) []) ?_ h
      intro z fs hz
      rcases aget_aset_cases acc (normalizeName p.1) ([] : List OutEntry) z
        with hc | hc
      · exact hacc z fs (hc ▸ hz)
      · rw [hc] at hz
        exact (Option.some.injEq _ _ ▸ hz).symm

theorem initOut_values (raw : List (String × List String)) (y : String)
    (es : List OutEntry) (h : aget (initOut raw) y = some es) : es = [] :=
  initOut_values_aux raw [] (by intro z fs hz; cases hz) y es h

theorem buildWork_k (raw : List (String × List String)) (w : WorkItem)
    (h : w ∈ buildWork raw) : w.k = key w.country w.city := by
  induction raw with
  | nil => cases h
  | cons p rest ih =>
      obtain ⟨countryRaw, cities⟩ := p
      rcases List.mem_append.mp h with hh | hh
      · obtain ⟨cityRaw, _, hw⟩ := List.mem_map.mp hh
        rw [← hw]
      · exact ih hh

theorem buildWork_mem (raw : List (String × List String)) (c : String)
    (cs : List String) (city : String) (hc : (c, cs) ∈ raw) (hcity : city ∈ cs) :
    WorkItem.mk (normalizeName c) (normalizeName city)
      (key (normalizeName c) (normalizeName city)) ∈ buildWork raw := by
  induction raw with
  | nil => cases hc
  | cons p rest ih =>
      rcases List.mem_cons.mp hc with hh | hh
      · subst hh
        exact List.mem_append.mpr (Or.inl (List.mem_map.mpr ⟨city, hcity, rfl⟩))
      · obtain ⟨countryRaw, cities⟩ := p
        exact List.mem_append.mpr (Or.inr (ih hh))

/-- Every output entry agrees with the cache record stored under its derived
key. -/
def outConsistent (st : RunState) : Prop :=
  ∀ c es, aget st.out c = some es →
    ∀ e ∈ es, aget st.cache (key c e.name) = some ⟨e.lat, e.lng⟩

theorem pushOut_entry_mem (out : List (String × List OutEntry)) (c0 : String)
    (ent : OutEntry) (c : String) (es : List OutEntry)
    (hes : aget (pushOut out c0 ent) c = some es) (e : OutEntry) (he : e ∈ es) :
    (∃ es0, aget out c = some es0 ∧ e ∈ es0) ∨ (c = c0 ∧ e = ent) := by
  by_cases hc : c = c0
  · subst hc
    rw [aget_pushOut_self] at hes
    have hx := Option.some.inj hes
    subst hx
    rcases List.mem_append.mp he with h1 | h1
    · left
      cases hold : aget out c with
      | none => rw [hold] at h1; simp at h1
      | some es0 => rw [hold] at h1; exact ⟨es0, rfl, by simpa using h1⟩
    · right
      exact ⟨rfl, by simpa using h1⟩
  · rw [aget_pushOut_ne out c0 ent c hc] at hes
    exact Or.inl ⟨es, hes, he⟩

theorem runTask_outConsistent (mk : String)
    (netM : String → Option String → PResp) (netN : String → PResp)
    (st : RunState) (w : WorkItem) (hk : w.k = key w.country w.city)
    (h : outConsistent st) : outConsistent (runTask mk netM netN st w).1 := by
  cases hc : aget st.cache w.k with
  | some v =>
      rw [runTask_hit mk netM netN st w v hc]
      intro c es hes e he
      rcases pushOut_entry_mem st.out w.country _ c es hes e he with
        ⟨es0, h0, he0⟩ | ⟨hcw, hent⟩
      · exact h c es0 h0 e he0
      · subst hcw
        subst hent
        simpa [← hk] using hc
  | none =>
      rcases hres : resolveItem mk netM netN w.country w.city with ⟨r, evs⟩
      cases r with
      | some co =>
          rw [runTask_resolve mk netM netN st w co evs hc hres]
          intro c es hes e he
          rcases pushOut_entry_mem st.out w.country _ c es hes e he with
            ⟨es0, h0, he0⟩ | ⟨hcw, hent⟩
          · have hprev := h c es0 h0 e he0
            have hne : key c e.name ≠ w.k := by
              intro hhe
              rw [hhe, hc] at hprev
              exact Option.noConfusion hprev
            simpa [aget_aset_ne st.cache w.k co _ hne] using hprev
          · subst hcw
            subst hent
            simpa [← hk] using aget_aset_self st.cache w.k co
      | none =>
          rw [runTask_missed mk netM netN st w evs hc hres]
          exact h

theorem runAll_outConsistent (mk : String)
    (netM : String → Option String → PResp) (netN : String → PResp)
    (ws : List WorkItem) (st : RunState)
    (hks : ∀ w ∈ ws, w.k = key w.country w.city) (h : outConsistent st) :
    outConsistent (runAll mk netM netN st ws).1 := by
  induction ws generalizing st with
  | nil => simpa [runAll] using h
  | cons w ws ih =>
      simp only [runAll]
      exact ih (runTask mk netM netN st w).1
        (fun w' hw' => hks w' (List.mem_cons_of_mem w hw'))
        (runTask_outConsistent mk netM netN st w
          (hks w (List.mem_cons_self w ws)) h)

theorem resolveItem_none (mk : String) (netM : String → Option String → PResp)
    (netN : String → PResp) (country city : String)
    (h1 : (attempt mk netM netN (city ++ ", " ++ country) country).1 = none)
    (h2 : (attempt mk netM netN city country).1 = none) :
    resolveItem mk netM netN country city
      = (none, (attempt mk netM netN (city ++ ", " ++ country) country).2
          ++ (attempt mk netM netN city country).2) := by
  simp [resolveItem, h1, h2]

theorem resolveItem_fb (mk : String) (netM : String → Option String → PResp)
    (netN : String → PResp) (country city : String) (co : Coord)
    (h1 : (attempt mk netM netN (city ++ ", " ++ country) country).1 = none)
    (h2 : (attempt mk netM netN city country).1 = some co) :
    resolveItem mk netM netN country city
      = (some co, (attempt mk netM netN (city ++ ", " ++ country) country).2
          ++ (attempt mk netM netN city country).2) := by
  simp [resolveItem, h1, h2]

theorem attempt_calls (mk : String) (netM : String → Option String → PResp)
    (netN : String → PResp) (q country : String) :
    callsOf (attempt mk netM netN q country).2 = [q] := by
  unfold attempt
  by_cases hmk : mk = ""
  · simp only [hmk, if_pos rfl]
    cases geocodeNominatim netN q with
    | error e => simp [callsOf]
    | ok r => simp [callsOf]
  · simp [hmk, callsOf]

theorem runTask_cache_none (mk : String)
    (netM : String → Option String → PResp) (netN : String → PResp)
    (st : RunState) (w : WorkItem) (x : String) (hx : aget st.cache x = none)
    (hne : x ≠ w.k) : aget (runTask mk netM netN st w).1.cache x = none := by
  cases hc : aget st.cache w.k with
  | some v =>
      rw [runTask_hit mk netM netN st w v hc]
      exact hx
  | none =>
      rcases hres : resolveItem mk netM netN w.country w.city with ⟨r, evs⟩
      cases r with
      | some co =>
          rw [runTask_resolve mk netM netN st w co evs hc hres]
          simpa [aget_aset_ne st.cache w.k co x hne] using hx
      | none =>
          rw [runTask_missed mk netM netN st w evs hc hres]
          exact hx

theorem runTask_out_no_name (mk : String)
    (netM : String → Option String → PResp) (netN : String → PResp)
    (st : RunState) (w : WorkItem) (C c : String)
    (hw : w.country = C → w.city ≠ c)
    (hout : ∀ es, aget st.out C = some es → ∀ e ∈ es, e.name ≠ c) :
    ∀ es, aget (runTask mk netM netN st w).1.out C = some es →
      ∀ e ∈ es, e.name ≠ c := by
  have hpush : ∀ (ent : OutEntry), ent.name = w.city →
      ∀ es, aget (pushOut st.out w.country ent) C = some es →
        ∀ e ∈ es, e.name ≠ c := by
    intro ent hname es hes e he
    rcases pushOut_entry_mem st.out w.country ent C es hes e he with
      ⟨es0, h0, he0⟩ | ⟨hcw, hent⟩
    · exact hout es0 h0 e he0
    · subst hent
      rw [hname]
      exact hw hcw.symm
  cases hc : aget st.cache w.k with
  | some v =>
      rw [runTask_hit mk netM netN st w v hc]
      exact hpush _ rfl
  | none =>
      rcases hres : resolveItem mk netM netN w.country w.city with ⟨r, evs⟩
      cases r with
      | some co =>
          rw [runTask_resolve mk netM netN st w co evs hc hres]
          exact hpush _ rfl
      | none =>
          rw [runTask_missed mk netM netN st w evs hc hres]
          exact hout

theorem runAll_hits_count (mk : String)
    (netM : String → Option String → PResp) (netN : String → PResp)
    (p : String → Bool) (ws : List WorkItem) (st : RunState)
    (hinv : ∀ w ∈ ws, (aget st.cache w.k).isSome = p w.k)
    (hnd : (ws.map WorkItem.k).Nodup) :
    (runAll mk netM netN st ws).1.hits
      = st.hits + ws.countP (fun w => p w.k) := by
  induction ws generalizing st with
  | nil => simp [runAll]
  | cons w ws ih =>
      simp only [runAll]
      rw [List.map_cons] at hnd
      have hnds := List.nodup_cons.mp hnd
      cases hc : aget st.cache w.k with
      | some v =>
          have hp : p w.k = true := by
            rw [← hinv w (List.mem_cons_self w ws), hc]
            rfl
          have hst : (runTask mk netM netN st w).1
              = { st with
                    out := pushOut st.out w.country ⟨w.city, v.lat, v.lng⟩,
                    hits := st.hits + 1, processed := st.processed + 1 } := by
            rw [runTask_hit mk netM netN st w v hc]
          have hrec := ih
            { st with out := pushOut st.out w.country ⟨w.city, v.lat, v.lng⟩,
                      hits := st.hits + 1, processed := st.processed + 1 }
            (fun w2 hw2 => hinv w2 (List.mem_cons_of_mem w hw2)) hnds.2
          rw [hst, hrec, List.countP_cons]
          simp [hp]
          omega
      | none =>
          have hp : p w.k = false := by
            rw [← hinv w (List.mem_cons_self w ws), hc]
            rfl
          have hothers : ∀ w2 ∈ ws,
              (aget (runTask mk netM netN st w).1.cache w2.k).isSome
                = p w2.k := by
            intro w2 hw2
            have hne : w2.k ≠ w.k := by
              intro he
              exact hnds.1 (he ▸ List.mem_map.mpr ⟨w2, hw2, rfl⟩)
            rcases hres : resolveItem mk netM netN w.country w.city with
              ⟨r, evs⟩
            cases r with
            | some co =>
                rw [runTask_resolve mk netM netN st w co evs hc hres]
                simpa [aget_aset_ne st.cache w.k co w2.k hne] using
                  hinv w2 (List.mem_cons_of_mem w hw2)
            | none =>
                rw [runTask_missed mk netM netN st w evs hc hres]
                exact hinv w2 (List.mem_cons_of_mem w hw2)
          have hhits : (runTask mk netM netN st w).1.hits = st.hits := by
            rcases hres : resolveItem mk netM netN w.country w.city with
              ⟨r, evs⟩
            cases r with
            | some co => rw [runTask_resolve mk netM netN st w co evs hc hres]
            | none => rw [runTask_missed mk netM netN st w evs hc hres]
          rw [ih _ hothers hnds.2, hhits, List.countP_cons]
          simp [hp]

theorem c6_inv (mk : String) (netM : String → Option String → PResp)
    (netN : String → PResp) (C c : String)
    (hf1 : (attempt mk netM netN (c ++ ", " ++ C) C).1 = none)
    (hf2 : (attempt mk netM netN c C).1 = none) (ws : List WorkItem)
    (st : RunState) (hks : ∀ w ∈ ws, w.k = key w.country w.city)
    (hkey : ∀ w ∈ ws, w.k = key C c → w.country = C ∧ w.city = c)
    (hc0 : aget st.cache (key C c) = none)
    (ho0 : ∀ es, aget st.out C = some es → ∀ e ∈ es, e.name ≠ c) :
    aget (runAll mk netM netN st ws).1.cache (key C c) = none ∧
    (∀ es, aget (runAll mk netM netN st ws).1.out C = some es →
      ∀ e ∈ es, e.name ≠ c) := by
  induction ws generalizing st with
  | nil => exact ⟨by simpa [runAll] using hc0, by simpa [runAll] using ho0⟩
  | cons w ws ih =>
      simp only [runAll]
      by_cases hwc : w.country = C ∧ w.city = c
      · have hwk : w.k = key C c := by
          rw [hks w (List.mem_cons_self w ws), hwc.1, hwc.2]
        have hcache : aget st.cache w.k = none := by rw [hwk]; exact hc0
        have hres : resolveItem mk netM netN w.country w.city
            = (none, (attempt mk netM netN (c ++ ", " ++ C) C).2
                ++ (attempt mk netM netN c C).2) := by
          rw [hwc.1, hwc.2]
          exact resolveItem_none mk netM netN C c hf1 hf2
        have hst : (runTask mk netM netN st w).1
            = { st with misses := st.misses + 1,
                        processed := st.processed + 1 } := by
          rw [runTask_missed mk netM netN st w _ hcache hres]
        rw [hst]
        exact ih
          { st with misses := st.misses + 1, processed := st.processed + 1 }
          (fun w2 hw2 => hks w2 (List.mem_cons_of_mem w hw2))
          (fun w2 hw2 => hkey w2 (List.mem_cons_of_mem w hw2)) hc0 ho0
      · have hne : key C c ≠ w.k := by
          intro he
          exact hwc (hkey w (List.mem_cons_self w ws) he.symm)
        exact ih (runTask mk netM netN st w).1
          (fun w2 hw2 => hks w2 (List.mem_cons_of_mem w hw2))
          (fun w2 hw2 => hkey w2 (List.mem_cons_of_mem w hw2))
          (runTask_cache_none mk netM netN st w _ hc0 hne)
          (runTask_out_no_name mk netM netN st w C c
            (fun h1 h2 => hwc ⟨h1, h2⟩) ho0)

theorem callsOf_append (a b : List Event) :
    callsOf (a ++ b) = callsOf a ++ callsOf b := by
  induction a with
  | nil => simp [callsOf]
  | cons e t ih =>
      cases e with
      | call q => simp [callsOf, ih]
      | slept ms => simp [callsOf, ih]

theorem keyInj_aux (c1 : List Char) : ∀ (c2 t1 t2 : List Char),
    ':' ∉ c1 → ':' ∉ c2 →
    c1 ++ ':' :: ':' :: t1 = c2 ++ ':' :: ':' :: t2 → c1 = c2 ∧ t1 = t2 := by
  induction c1 with
  | nil =>
      intro c2 t1 t2 _ h2 he
      cases c2 with
      | nil => simpa using he
      | cons y c2t =>
          rw [List.nil_append, List.cons_append] at he
          injection he with hh ht
          subst hh
          exact absurd (List.mem_cons_self _ _) h2
  | cons x c1t ih =>
      intro c2 t1 t2 h1 h2 he
      cases c2 with
      | nil =>
          rw [List.nil_append, List.cons_append] at he
          injection he with hh ht
          subst hh
          exact absurd (List.mem_cons_self _ _) h1
      | cons y c2t =>
          rw [List.cons_append, List.cons_append] at he
          injection he with hh ht
          subst hh
          have h1t : ':' ∉ c1t := fun hm => h1 (List.mem_cons_of_mem x hm)
          have h2t : ':' ∉ c2t := fun hm => h2 (List.mem_cons_of_mem x hm)
          obtain ⟨hc, htl⟩ := ih c2t t1 t2 h1t h2t ht
          exact ⟨by rw [hc], htl⟩

theorem key_data (c t : String) :
    (key c t).data = c.data ++ ':' :: ':' :: t.data := by
  have h2 : ("::" : String).data = [':', ':'] := rfl
  rw [key, String.data_append, String.data_append, h2]
  simp

/--
Claim C1 (refuted; code bug).  The claim says every unkeyed provider call is
followed by an enforced ~1.1 s delay before the next unkeyed call regardless
of success or failure, so a run with N calls has elapsed time at least
1.1 s times (N - 1).  In the source the sleep(1100) sits inside the try
block after the awaited call, so a call that throws skips the delay: on a
single-item run whose primary and fallback calls both fail with HTTP 500,
the trace contains two provider calls and zero milliseconds of enforced
delay, strictly below the 1100 ms the claim requires between the calls.
-/
theorem claim_c1_rate_limit_gap :
    callsOf (run "" (fun _ _ => PResp.httpError 500)
        (fun _ => PResp.httpError 500) [("Germany", ["Berlin"])] []).2
      = ["Berlin, Germany", "Berlin"]
    ∧ totalSleep (run "" (fun _ _ => PResp.httpError 500)
        (fun _ => PResp.httpError 500) [("Germany", ["Berlin"])] []).2
      < 1100 * ((callsOf (run "" (fun _ _ => PResp.httpError 500)
          (fun _ => PResp.httpError 500) [("Germany", ["Berlin"])] []).2).length
            - 1) := by
  exact ⟨by decide, by decide⟩

/--
Claim C2 (refuted; code bug).  The claim (and the source's own comment
"Build a unique worklist") says the work list holds exactly one WorkItem per
unique normalized (country, city) pair, so "Berlin (virtual)" and "Berlin"
under the same country appear once.  The loop pushes one item per input
occurrence with no deduplication: on the catalog with cities
"Berlin (virtual)" and "Berlin" under Germany the work list has two items
carrying the same key.
-/
theorem claim_c2_worklist_not_deduped :
    buildWork [("Germany", ["Berlin (virtual)", "Berlin"])]
      = [WorkItem.mk "Germany" "Berlin" "Germany::Berlin",
         WorkItem.mk "Germany" "Berlin" "Germany::Berlin"] := by
  decide

/--
Claim C4, counterexample.  Key derivation joins with "::" and is not
injective on all normalized pairs: ("a", "b::c") and ("a::b", "c") are
distinct normalized pairs with the same derived key "a::b::c".
-/
theorem claim_c4_counterexample :
    key "a" "b::c" = key "a::b" "c"
    ∧ (("a", "b::c") : String × String) ≠ ("a::b", "c")
    ∧ normalizeName "a" = "a" ∧ normalizeName "b::c" = "b::c"
    ∧ normalizeName "a::b" = "a::b" ∧ normalizeName "c" = "c" := by
  decide

/--
Claim C4, amended.  Key derivation is injective on pairs whose country
component contains no ':' character: for such pairs, equal keys force equal
countries and equal cities.  (Excluding only countries containing the full
separator "::" would not suffice: key "a:" "x" also equals key "a" ":x".)
-/
theorem claim_c4_amended (c1 t1 c2 t2 : String) (h1 : ':' ∉ c1.data)
    (h2 : ':' ∉ c2.data) (he : key c1 t1 = key c2 t2) : c1 = c2 ∧ t1 = t2 := by
  have hd := congrArg String.data he
  rw [key_data, key_data] at hd
  obtain ⟨hc, ht⟩ := keyInj_aux c1.data c2.data t1.data t2.data h1 h2 hd
  constructor
  · cases c1
    cases c2
    exact congrArg String.mk hc
  · cases t1
    cases t2
    exact congrArg String.mk ht

theorem claim_c4_amended_witness :
    ("Germany" : String) = "Germany" ∧ ("Berlin" : String) = "Berlin" :=
  claim_c4_amended "Germany" "Berlin" "Germany" "Berlin" (by decide) (by decide)
    rfl

/--
Claim C9, counterexample.  The claim says a city that is empty after
normalization is excluded from the work list and triggers no provider call.
The city loop has no emptiness check: the input city " (virtual)"
normalizes to "" yet yields a WorkItem, and the run issues the provider
query ", Germany" (and the bare fallback "") for it.
-/
theorem claim_c9_counterexample :
    buildWork [("Germany", [" (virtual)"])]
      = [WorkItem.mk "Germany" "" "Germany::"]
    ∧ callsOf (run "" (fun _ _ => PResp.noResult) (fun _ => PResp.noResult)
        [("Germany", [" (virtual)"])] []).2 = [", Germany", ""] := by
  exact ⟨by decide, by decide⟩

/--
Claim C9, amended.  A city that is empty after normalization is NOT
excluded: every input city occurrence (empty-normalized or not) yields a
WorkItem in the work list, and the provider is queried for it on a cache
miss; the city's country still appears as a key of the output catalog.
-/
theorem claim_c9_amended (raw : List (String × List String)) (c city : String)
    (cs : List String) (mk : String) (netM : String → Option String → PResp)
    (netN : String → PResp) (cache0 : List (String × Coord))
    (hc : (c, cs) ∈ raw) (hcity : city ∈ cs) :
    WorkItem.mk (normalizeName c) (normalizeName city)
        (key (normalizeName c) (normalizeName city)) ∈ buildWork raw
    ∧ (aget (run mk netM netN raw cache0).1.out (normalizeName c)).isSome := by
  constructor
  · exact buildWork_mem raw c cs city hc hcity
  · exact runAll_out_isSome mk netM netN (buildWork raw)
      (initState raw cache0) (normalizeName c) (aget_initOut_mem raw c cs hc)

theorem claim_c9_amended_witness :
    WorkItem.mk (normalizeName "Germany") (normalizeName " (virtual)")
        (key (normalizeName "Germany") (normalizeName " (virtual)"))
      ∈ buildWork [("Germany", [" (virtual)"])]
    ∧ (aget (run "" (fun _ _ => PResp.noResult) (fun _ => PResp.noResult)
        [("Germany", [" (virtual)"])] []).1.out
          (normalizeName "Germany")).isSome :=
  claim_c9_amended [("Germany", [" (virtual)"])] "Germany" " (virtual)"
    [" (virtual)"] "" (fun _ _ => PResp.noResult) (fun _ => PResp.noResult) []
    (by decide) (by decide)

/--
Claim C3, counterexample.  The claim says the hit counter equals the number
of pre-populated cache keys that occur in the work list.  Because the work
list is not deduplicated, both occurrences of the key "Germany::Berlin"
(from input cities "Berlin" and "Berlin (virtual)") are counted as hits
against a cache pre-populated with that single key: hits is 2 while the
number of distinct pre-populated keys occurring in the work list is 1.
-/
theorem claim_c3_counterexample :
    (run "" (fun _ _ => PResp.httpError 500) (fun _ => PResp.httpError 500)
        [("Germany", ["Berlin", "Berlin (virtual)"])]
        [("Germany::Berlin", Coord.mk 1 2)]).1.hits = 2
    ∧ (((buildWork [("Germany", ["Berlin", "Berlin (virtual)"])]).map
          WorkItem.k).dedup.countP
        (fun x => (aget [("Germany::Berlin", Coord.mk 1 2)] x).isSome)) = 1 := by
  exact ⟨by decide, by decide⟩

/--
Claim C3, amended.  For every key present in the cache loaded at the start
of a run: the task for an item carrying that key is an immediate cache hit
that makes no provider call (empty event trace) and leaves the cache field
untouched, and the entry is never overwritten during the run.  The hit
counter counts work-list occurrences satisfied from the cache, so hits
equals the number of pre-populated keys occurring in the work list exactly
when the (non-deduplicated) work list carries no duplicate keys, which is
the hypothesis below; with duplicates, hits counts every occurrence.
-/
theorem claim_c3_amended (mk : String) (netM : String → Option String → PResp)
    (netN : String → PResp) (raw : List (String × List String))
    (cache0 : List (String × Coord))
    (hnd : ((buildWork raw).map WorkItem.k).Nodup) :
    (∀ x v, aget cache0 x = some v →
      aget (run mk netM netN raw cache0).1.cache x = some v)
    ∧ (run mk netM netN raw cache0).1.hits
        = (buildWork raw).countP (fun w => (aget cache0 w.k).isSome)
    ∧ (∀ (s : RunState) (w : WorkItem) v, aget s.cache w.k = some v →
        runTask mk netM netN s w
          = ({ s with out := pushOut s.out w.country ⟨w.city, v.lat, v.lng⟩,
                      hits := s.hits + 1, processed := s.processed + 1 },
             [])) := by
  refine ⟨?_, ?_, ?_⟩
  · intro x v h
    exact runAll_cache_mono mk netM netN (buildWork raw)
      (initState raw cache0) x v h
  · have hcount := runAll_hits_count mk netM netN
      (fun x => (aget cache0 x).isSome) (buildWork raw)
      (initState raw cache0) (fun w _ => rfl) hnd
    simpa [run, initState] using hcount
  · intro s w v h
    exact runTask_hit mk netM netN s w v h

theorem claim_c3_amended_witness :
    (run "" (fun _ _ => PResp.httpError 500) (fun _ => PResp.httpError 500)
        [("Germany", ["Berlin"])] [("Germany::Berlin", Coord.mk 1 2)]).1.hits
      = (buildWork [("Germany", ["Berlin"])]).countP
          (fun w => (aget [("Germany::Berlin", Coord.mk 1 2)] w.k).isSome) :=
  (claim_c3_amended "" (fun _ _ => PResp.httpError 500)
    (fun _ => PResp.httpError 500) [("Germany", ["Berlin"])]
    [("Germany::Berlin", Coord.mk 1 2)] (by decide)).2.1

/--
Claim C7 (confirmed).  Provider errors are swallowed inside each task (the
two try/catch blocks are embedded in `attempt`), so for every catalog,
loaded cache, credential and pattern of provider responses — including
all-failing providers — the run processes the entire work list, preserves
every loaded cache entry in the final (persisted) cache, and the final
(persisted) output catalog contains a key for every input country; no
provider failure aborts the pipeline.
-/
theorem claim_c7_errors_swallowed (mk : String)
    (netM : String → Option String → PResp) (netN : String → PResp)
    (raw : List (String × List String)) (cache0 : List (String × Coord)) :
    (run mk netM netN raw cache0).1.processed = (buildWork raw).length
    ∧ (∀ x v, aget cache0 x = some v →
        aget (run mk netM netN raw cache0).1.cache x = some v)
    ∧ (∀ c cs, (c, cs) ∈ raw →
        (aget (run mk netM netN raw cache0).1.out (normalizeName c)).isSome) := by
  refine ⟨?_, ?_, ?_⟩
  · have hp := runAll_processed mk netM netN (buildWork raw)
      (initState raw cache0)
    simpa [run, initState] using hp
  · intro x v h
    exact runAll_cache_mono mk netM netN (buildWork raw)
      (initState raw cache0) x v h
  · intro c cs h
    exact runAll_out_isSome mk netM netN (buildWork raw)
      (initState raw cache0) (normalizeName c) (aget_initOut_mem raw c cs h)

theorem claim_c7_errors_swallowed_witness :
    (run "" (fun _ _ => PResp.httpError 503) (fun _ => PResp.httpError 503)
        [("Germany", ["Berlin"])] [("X", Coord.mk 1 2)]).1.processed
      = (buildWork [("Germany", ["Berlin"])]).length
    ∧ aget (run "" (fun _ _ => PResp.httpError 503)
        (fun _ => PResp.httpError 503) [("Germany", ["Berlin"])]
        [("X", Coord.mk 1 2)]).1.cache "X" = some (Coord.mk 1 2)
    ∧ (aget (run "" (fun _ _ => PResp.httpError 503)
        (fun _ => PResp.httpError 503) [("Germany", ["Berlin"])]
        [("X", Coord.mk 1 2)]).1.out (normalizeName "Germany")).isSome :=
  ⟨(claim_c7_errors_swallowed "" (fun _ _ => PResp.httpError 503)
      (fun _ => PResp.httpError 503) [("Germany", ["Berlin"])]
      [("X", Coord.mk 1 2)]).1,
   (claim_c7_errors_swallowed "" (fun _ _ => PResp.httpError 503)
      (fun _ => PResp.httpError 503) [("Germany", ["Berlin"])]
      [("X", Coord.mk 1 2)]).2.1 "X" (Coord.mk 1 2) (by decide),
   (claim_c7_errors_swallowed "" (fun _ _ => PResp.httpError 503)
      (fun _ => PResp.httpError 503) [("Germany", ["Berlin"])]
      [("X", Coord.mk 1 2)]).2.2 "Germany" ["Berlin"] (by decide)⟩

/--
Claim C10 (confirmed, under collision-free keys).  Both output-append sites
spread the cache record stored under the item's key (the hit path copies
the existing record, the resolution path copies the record it has just
written), so at run end every entry of the output catalog carries exactly
the coordinates persisted in the cache under the key derived from its
country and name.  The hypothesis `hnc` — no two work items derive the same
key from different (country, city) pairs — scopes the statement to runs
where the property is interleaving-independent: with it, items with equal
keys are equal pairs issuing equal queries against the per-query network
function, so even the keyed concurrency-6 schedule can only rewrite a key
with the same value, while colliding keys could let a later concurrent
write overwrite the record behind an already-appended entry.  The unkeyed
path needs no such caveat (concurrency 1, which this fold models exactly),
but the hypothesis is required for the claim to hold of the program on
both provider paths.
-/
theorem claim_c10_out_cache_consistent (mk : String)
    (netM : String → Option String → PResp) (netN : String → PResp)
    (raw : List (String × List String)) (cache0 : List (String × Coord))
    (c : String) (es : List OutEntry)
    (hnc : ∀ w ∈ buildWork raw, ∀ w2 ∈ buildWork raw,
      w.k = w2.k → w.country = w2.country ∧ w.city = w2.city)
    (hes : aget (run mk netM netN raw cache0).1.out c = some es) :
    ∀ e ∈ es, aget (run mk netM netN raw cache0).1.cache (key c e.name)
      = some (Coord.mk e.lat e.lng) := by
  have hinit : outConsistent (initState raw cache0) := by
    intro c2 es2 h2 e he
    rw [initOut_values raw c2 es2 h2] at he
    cases he
  exact runAll_outConsistent mk netM netN (buildWork raw)
    (initState raw cache0) (fun w hw => buildWork_k raw w hw) hinit c es hes

theorem claim_c10_out_cache_consistent_witness :
    aget (run "" (fun _ _ => PResp.noResult)
        (fun q => if q = "Berlin, Germany" then PResp.found 52 13
                  else PResp.noResult)
        [("Germany", ["Berlin"])] []).1.cache (key "Germany" "Berlin")
      = some (Coord.mk 52 13) :=
  claim_c10_out_cache_consistent "" (fun _ _ => PResp.noResult)
    (fun q => if q = "Berlin, Germany" then PResp.found 52 13
              else PResp.noResult)
    [("Germany", ["Berlin"])] [] "Germany" [OutEntry.mk "Berlin" 52 13]
    (by decide) (by decide) (OutEntry.mk "Berlin" 52 13) (by decide)

/--
Claim C8 (confirmed).  loadJSON returns its fallback when the file is
absent or unreadable (contents `none`) and when the contents fail to parse,
and main proceeds: with an absent input catalog the run processes zero
items, and a malformed cache file makes the run identical to one with no
cache file, in both cases completing instead of raising.
-/
theorem claim_c8_load_fallback :
    (∀ (p : String → Option (List (String × List String)))
        (fb : List (String × List String)), loadJSON none p fb = fb)
    ∧ (∀ (p : String → Option (List (String × List String)))
        (fb : List (String × List String)) (s : String), p s = none →
          loadJSON (some s) p fb = fb)
    ∧ (∀ (mk : String) (netM : String → Option String → PResp)
        (netN : String → PResp) (cacheC : Option String)
        (pc : String → Option (List (String × List String)))
        (pk : String → Option (List (String × Coord))),
          (mainModel mk netM netN none cacheC pc pk).1.processed = 0)
    ∧ (∀ (mk : String) (netM : String → Option String → PResp)
        (netN : String → PResp) (inputC : Option String) (s : String)
        (pc : String → Option (List (String × List String)))
        (pk : String → Option (List (String × Coord))), pk s = none →
          mainModel mk netM netN inputC (some s) pc pk
            = mainModel mk netM netN inputC none pc pk) := by
  refine ⟨fun p fb => rfl, ?_, ?_, ?_⟩
  · intro p fb s h
    simp [loadJSON, h]
  · intro mk netM netN cacheC pc pk
    rfl
  · intro mk netM netN inputC s pc pk h
    simp [mainModel, loadJSON, h]

theorem claim_c8_load_fallback_witness :
    loadJSON (some "garbage")
        (fun _ => (none : Option (List (String × List String)))) [] = []
    ∧ (mainModel "" (fun _ _ => PResp.noResult) (fun _ => PResp.noResult)
        none (some "junk")
        (fun _ => (none : Option (List (String × List String))))
        (fun _ => (none : Option (List (String × Coord))))).1.processed = 0 :=
  ⟨claim_c8_load_fallback.2.1 (fun _ => none) [] "garbage" rfl,
   claim_c8_load_fallback.2.2.1 "" (fun _ _ => PResp.noResult)
     (fun _ => PResp.noResult) (some "junk") (fun _ => none) (fun _ => none)⟩

theorem runAll_append_state (mk : String)
    (netM : String → Option String → PResp) (netN : String → PResp)
    (xs ys : List WorkItem) (st : RunState) :
    (runAll mk netM netN st (xs ++ ys)).1
      = (runAll mk netM netN (runAll mk netM netN st xs).1 ys).1 := by
  rw [runAll_append]

/--
Claim C5 (confirmed).  For a work item not satisfied from the cache at its
turn, when the primary query "city, country" yields no (caught) result —
it failed or returned absent — the task issues exactly one fallback call
with the bare city name and nothing else; and when that fallback yields a
coordinate, the task does not count a miss and the coordinate is appended
to the output catalog under the item's country, where it survives to the
end of the run.
-/
theorem claim_c5_fallback (mk : String) (netM : String → Option String → PResp)
    (netN : String → PResp) (raw : List (String × List String))
    (cache0 : List (String × Coord)) (w1 w2 : List WorkItem) (item : WorkItem)
    (co : Coord) (hsplit : buildWork raw = w1 ++ item :: w2)
    (hmiss : aget (runAll mk netM netN (initState raw cache0) w1).1.cache
      item.k = none)
    (h1 : (attempt mk netM netN (item.city ++ ", " ++ item.country)
      item.country).1 = none)
    (h2 : (attempt mk netM netN item.city item.country).1 = some co) :
    callsOf (runTask mk netM netN
        (runAll mk netM netN (initState raw cache0) w1).1 item).2
      = [item.city ++ ", " ++ item.country, item.city]
    ∧ (runTask mk netM netN
        (runAll mk netM netN (initState raw cache0) w1).1 item).1.misses
      = (runAll mk netM netN (initState raw cache0) w1).1.misses
    ∧ ∃ es tail,
        aget (run mk netM netN raw cache0).1.out item.country
          = some (es ++ OutEntry.mk item.city co.lat co.lng :: tail) := by
  have hres := resolveItem_fb mk netM netN item.country item.city co h1 h2
  have htask := runTask_resolve mk netM netN
    (runAll mk netM netN (initState raw cache0) w1).1 item co _ hmiss hres
  have htr : (runTask mk netM netN
      (runAll mk netM netN (initState raw cache0) w1).1 item).2
      = (attempt mk netM netN (item.city ++ ", " ++ item.country)
          item.country).2 ++ (attempt mk netM netN item.city item.country).2 := by
    rw [htask]
  have hstate : (runTask mk netM netN
      (runAll mk netM netN (initState raw cache0) w1).1 item).1
      = { (runAll mk netM netN (initState raw cache0) w1).1 with
            cache := aset (runAll mk netM netN
              (initState raw cache0) w1).1.cache item.k co,
            out := pushOut (runAll mk netM netN
              (initState raw cache0) w1).1.out item.country
              ⟨item.city, co.lat, co.lng⟩,
            processed := (runAll mk netM netN
              (initState raw cache0) w1).1.processed + 1 } := by
    rw [htask]
  refine ⟨?_, ?_, ?_⟩
  · rw [htr, callsOf_append, attempt_calls, attempt_calls]
    rfl
  · rw [hstate]
  · have hrun0 : (run mk netM netN raw cache0).1
        = (runAll mk netM netN (initState raw cache0)
            (w1 ++ item :: w2)).1 := by
      rw [← hsplit]
      rfl
    have hchain : (run mk netM netN raw cache0).1
        = (runAll mk netM netN (runTask mk netM netN
            (runAll mk netM netN (initState raw cache0) w1).1 item).1
            w2).1 := by
      rw [hrun0, runAll_append_state]
      rfl
    have hbase : aget (runTask mk netM netN
        (runAll mk netM netN (initState raw cache0) w1).1 item).1.out
          item.country
        = some ((aget (runAll mk netM netN
            (initState raw cache0) w1).1.out item.country).getD []
              ++ [OutEntry.mk item.city co.lat co.lng]) := by
      rw [hstate]
      exact aget_pushOut_self (runAll mk netM netN
        (initState raw cache0) w1).1.out item.country _
    obtain ⟨tail2, htail⟩ := runAll_out_extends mk netM netN w2
      (runTask mk netM netN
        (runAll mk netM netN (initState raw cache0) w1).1 item).1
      item.country
      ((aget (runAll mk netM netN
          (initState raw cache0) w1).1.out item.country).getD []
        ++ [OutEntry.mk item.city co.lat co.lng]) hbase
    refine ⟨(aget (runAll mk netM netN
        (initState raw cache0) w1).1.out item.country).getD [], tail2, ?_⟩
    rw [hchain, htail]
    simp [List.append_assoc]

theorem claim_c5_fallback_witness :
    callsOf (runTask ""
        (fun _ _ => PResp.noResult)
        (fun q => if q = "Berlin" then PResp.found 52 13 else PResp.noResult)
        (runAll "" (fun _ _ => PResp.noResult)
          (fun q => if q = "Berlin" then PResp.found 52 13 else PResp.noResult)
          (initState [("Germany", ["Berlin"])] []) []).1
        (WorkItem.mk "Germany" "Berlin" "Germany::Berlin")).2
      = [(WorkItem.mk "Germany" "Berlin" "Germany::Berlin").city ++ ", "
          ++ (WorkItem.mk "Germany" "Berlin" "Germany::Berlin").country,
         (WorkItem.mk "Germany" "Berlin" "Germany::Berlin").city]
    ∧ (runTask "" (fun _ _ => PResp.noResult)
        (fun q => if q = "Berlin" then PResp.found 52 13 else PResp.noResult)
        (runAll "" (fun _ _ => PResp.noResult)
          (fun q => if q = "Berlin" then PResp.found 52 13 else PResp.noResult)
          (initState [("Germany", ["Berlin"])] []) []).1
        (WorkItem.mk "Germany" "Berlin" "Germany::Berlin")).1.misses
      = (runAll "" (fun _ _ => PResp.noResult)
          (fun q => if q = "Berlin" then PResp.found 52 13 else PResp.noResult)
          (initState [("Germany", ["Berlin"])] []) []).1.misses
    ∧ ∃ es tail,
        aget (run "" (fun _ _ => PResp.noResult)
          (fun q => if q = "Berlin" then PResp.found 52 13 else PResp.noResult)
          [("Germany", ["Berlin"])] []).1.out
            (WorkItem.mk "Germany" "Berlin" "Germany::Berlin").country
          = some (es ++ OutEntry.mk
              (WorkItem.mk "Germany" "Berlin" "Germany::Berlin").city
              (Coord.mk 52 13).lat (Coord.mk 52 13).lng :: tail) :=
  claim_c5_fallback "" (fun _ _ => PResp.noResult)
    (fun q => if q = "Berlin" then PResp.found 52 13 else PResp.noResult)
    [("Germany", ["Berlin"])] [] [] []
    (WorkItem.mk "Germany" "Berlin" "Germany::Berlin") (Coord.mk 52 13)
    (by decide) (by decide) (by decide) (by decide)

/--
Claim C6 (confirmed).  For a (country, city) pair whose key is not in the
loaded cache and whose primary and fallback attempts both yield no (caught)
result — failed or absent — under the stated no-key-collision hypothesis:
the run never writes a cache entry under that key, the output list of that
country contains no entry with that city's name, every input country still
appears as a key of the output catalog, and the task itself only increments
the miss and processed counters, leaving cache and output untouched.
-/
theorem claim_c6_miss (mk : String) (netM : String → Option String → PResp)
    (netN : String → PResp) (raw : List (String × List String))
    (cache0 : List (String × Coord)) (C c : String)
    (hf1 : (attempt mk netM netN (c ++ ", " ++ C) C).1 = none)
    (hf2 : (attempt mk netM netN c C).1 = none)
    (h0 : aget cache0 (key C c) = none)
    (hkey : ∀ w ∈ buildWork raw, w.k = key C c → w.country = C ∧ w.city = c) :
    aget (run mk netM netN raw cache0).1.cache (key C c) = none
    ∧ (∀ es, aget (run mk netM netN raw cache0).1.out C = some es →
        ∀ e ∈ es, e.name ≠ c)
    ∧ (∀ c2 cs2, (c2, cs2) ∈ raw →
        (aget (run mk netM netN raw cache0).1.out (normalizeName c2)).isSome)
    ∧ (∀ s : RunState, aget s.cache (key C c) = none →
        runTask mk netM netN s (WorkItem.mk C c (key C c))
          = ({ s with misses := s.misses + 1, processed := s.processed + 1 },
             (attempt mk netM netN (c ++ ", " ++ C) C).2
               ++ (attempt mk netM netN c C).2)) := by
  have ho0 : ∀ es, aget (initState raw cache0).out C = some es →
      ∀ e ∈ es, e.name ≠ c := by
    intro es h2 e he
    rw [initOut_values raw C es h2] at he
    cases he
  have hmain := c6_inv mk netM netN C c hf1 hf2 (buildWork raw)
    (initState raw cache0) (fun w hw => buildWork_k raw w hw) hkey h0 ho0
  refine ⟨hmain.1, hmain.2, ?_, ?_⟩
  · intro c2 cs2 h
    exact runAll_out_isSome mk netM netN (buildWork raw)
      (initState raw cache0) (normalizeName c2) (aget_initOut_mem raw c2 cs2 h)
  · intro s hs
    exact runTask_missed mk netM netN s (WorkItem.mk C c (key C c)) _ hs
      (resolveItem_none mk netM netN C c hf1 hf2)

theorem claim_c6_miss_witness :
    aget (run "" (fun _ _ => PResp.noResult) (fun _ => PResp.noResult)
        [("Germany", ["Berlin"])] []).1.cache (key "Germany" "Berlin") = none
    ∧ (aget (run "" (fun _ _ => PResp.noResult) (fun _ => PResp.noResult)
        [("Germany", ["Berlin"])] []).1.out
          (normalizeName "Germany")).isSome :=
  ⟨(claim_c6_miss "" (fun _ _ => PResp.noResult) (fun _ => PResp.noResult)
      [("Germany", ["Berlin"])] [] "Germany" "Berlin" (by decide) (by decide)
      (by decide) (by decide)).1,
   (claim_c6_miss "" (fun _ _ => PResp.noResult) (fun _ => PResp.noResult)
      [("Germany", ["Berlin"])] [] "Germany" "Berlin" (by decide) (by decide)
      (by decide) (by decide)).2.2.1 "Germany" ["Berlin"] (by decide)⟩
